import Mathlib

/-
  Verification development for an AniList/Discord notification bot
  (single source file: src/github/anilist.js).

  The embedding models, faithfully to the JavaScript source:
  - the account store `anilistUsers` (discordId -> {id, name}) as an
    association list with JS-object insert/delete/lookup semantics;
  - the in-memory dedup ledger `lastActivityId` (remote name -> last id);
  - `loadUsers` (legacy migration with `requiresSave` and the per-entry
    try/catch around the remote resolver);
  - the per-account body of `fetchAndPostActivity` including the JS
    truthiness guard `lastActivityId[username] && lastActivityId[username]
    >= currentId` and the surrounding try/catch (a failed channel.send is
    caught after the ledger update);
  - the `!anilist link` collision check and upsert, the unlink handler;
  - the leaderboard pipeline of `fetchAndPostTopStats` (filter of failed /
    statistics-lacking responses, stable descending sort by count,
    slice(0, 10)); JavaScript Array.prototype.sort is stable, so it is
    modelled as a stable insertion sort.
  Remote HTTP calls are modelled by passing their outcome as a value:
  a resolver `String -> Except Unit (Option UserEntry)` (error = transport
  failure, ok none = user not found) and per-account fetch outcomes.
-/

namespace AnimeListBot

/-- One structured value of `anilistUsers`: `{ id, name }` as produced by
the AniList `USER_ID_QUERY` resolution. -/
structure UserEntry where
  id : Int
  name : String
deriving DecidableEq, Repr

/-- The account store `anilistUsers`, a JS object keyed by Discord id,
modelled as an association list in insertion order (JS string-keyed
objects preserve insertion order, which matters for `Object.values`). -/
abbrev Store := List (String × UserEntry)

/-- `anilistUsers[discordId]` read access. -/
def lookupEntry : Store → String → Option UserEntry
  | [], _ => none
  | p :: rest, k => if p.1 == k then some p.2 else lookupEntry rest k

/-- `anilistUsers[discordId] = value`: replace in place if the key exists,
otherwise append (JS object assignment semantics). -/
def insertEntry : Store → String → UserEntry → Store
  | [], k, v => [(k, v)]
  | p :: rest, k, v => if p.1 == k then (k, v) :: rest else p :: insertEntry rest k v

/-- `delete anilistUsers[discordId]`: drop the pairs bearing that key. -/
def eraseEntry : Store → String → Store
  | [], _ => []
  | p :: rest, k => if p.1 == k then eraseEntry rest k else p :: eraseEntry rest k

/-- The dedup ledger `lastActivityId`: remote display name to last-seen
activity identifier. -/
abbrev Ledger := String → Option Nat

def emptyLedger : Ledger := fun _ => none

/-- `lastActivityId[name] = v`. -/
def ledgerSet (l : Ledger) (n : String) (v : Nat) : Ledger :=
  fun m => if m = n then some v else l m

/-- `delete lastActivityId[name]`. -/
def ledgerErase (l : Ledger) (n : String) : Ledger :=
  fun m => if m = n then none else l m

/-- Outcome of one remote resolve-by-name request (`USER_ID_QUERY`):
`.error` = transport/parse failure (the axios promise rejected),
`.ok none` = response carried no `User` (not found),
`.ok (some u)` = resolution succeeded with `{id, name}`. -/
abbrev Resolver := String → Except Unit (Option UserEntry)

/-- One raw value of the persisted `users.json` document: a legacy bare
string, a structured object (with possibly falsy `id`/`name` fields), or
anything else (null, number, object lacking the fields, ...). -/
inductive RawValue
  | str (s : String)
  | obj (id : Int) (name : String)
  | other
deriving DecidableEq, Repr

/-- The parsed `users.json` document, keyed by Discord id. -/
abbrev RawDoc := List (String × RawValue)

/-- One iteration of the `for (const discordId in rawUsers)` loop of
`loadUsers`: bare strings are resolved remotely (success inserts the
structured form and sets `requiresSave`; not-found and transport errors
drop the entry), structured objects are kept only when `value.id` and
`value.name` are both truthy, everything else is skipped. -/
def convertStep (resolve : Resolver) (acc : Store × Bool) (entry : String × RawValue) :
    Store × Bool :=
  match entry.2 with
  | .str s =>
    match resolve s with
    | .ok (some u) => (insertEntry acc.1 entry.1 u, true)
    | .ok none => acc
    | .error _ => acc
  | .obj i n => if i != 0 && n != "" then (insertEntry acc.1 entry.1 ⟨i, n⟩, acc.2) else acc
  | .other => acc

/-- The whole conversion loop of `loadUsers`, starting from an empty
`convertedUsers` and `requiresSave = false`. -/
def convertUsers (resolve : Resolver) (doc : RawDoc) : Store × Bool :=
  doc.foldl (convertStep resolve) ([], false)

/-- Did this raw value trigger the `requiresSave = true` upgrade path? -/
def upgradedEntry (resolve : Resolver) (v : RawValue) : Bool :=
  match v with
  | .str s =>
    match resolve s with
    | .ok (some _) => true
    | _ => false
  | _ => false

/-- A raw value that is neither a legacy bare string nor a structured
object with truthy `id` and `name`: `loadUsers` silently omits such
entries from `convertedUsers`. -/
def invalidValue : RawValue → Bool
  | .str _ => false
  | .obj i n => !(i != 0 && n != "")
  | .other => true

/-- `loadUsers`, with the `JSON.parse` outcome passed as a value
(`.error` = the document failed to parse, so the outer catch fires and
`anilistUsers = {}`). Returns the resulting store and the number of
`saveUsers()` calls (the single re-persist when `requiresSave`). -/
def loadUsers (resolve : Resolver) (parsed : Except Unit RawDoc) : Store × Nat :=
  match parsed with
  | .error _ => ([], 0)
  | .ok doc =>
    let conv := convertUsers resolve doc
    (conv.1, if conv.2 then 1 else 0)

/-- The single fields of an activity node the dedup logic reads; the
notification text is rendered from further fields that do not affect
control flow, so only the identifier is carried. -/
structure Activity where
  id : Nat
deriving DecidableEq, Repr

/-- Outcome of the per-account `ACTIVITY_QUERY` request inside
`fetchAndPostActivity`: the request threw, the optional chain
`response.data.data?.Page?.activities?.[0]` produced nothing, or an
activity node was returned. -/
inductive FetchResult
  | fetchError
  | noActivity
  | found (a : Activity)
deriving DecidableEq, Repr

/-- One emitted notification (`channel.send`): which user it is about and
which activity identifier it announces. -/
structure Notif where
  username : String
  activityId : Nat
deriving DecidableEq, Repr

/-- The guard on line 198 of the source:
`lastActivityId[username] && lastActivityId[username] >= currentId`.
A missing entry is falsy; a stored value of `0` is also falsy in
JavaScript, so it never triggers the skip. -/
def alreadyKnown (stored : Option Nat) (currentId : Nat) : Bool :=
  match stored with
  | none => false
  | some v => v != 0 && decide (currentId ≤ v)

/-- The body of the per-account loop of `fetchAndPostActivity` for one
account: on a fetch error or missing activity nothing happens (the error
is caught and logged); otherwise the dedup guard is consulted; when the
activity is new the ledger is updated first and only then `channel.send`
runs — `sendOk = false` models a send that throws, which the
surrounding try/catch absorbs after the ledger update. Returns the new
ledger and the notification that was actually delivered, if any. -/
def processAccount (ledger : Ledger) (u : UserEntry) (fr : FetchResult) (sendOk : Bool) :
    Ledger × Option Notif :=
  match fr with
  | .fetchError => (ledger, none)
  | .noActivity => (ledger, none)
  | .found a =>
    if alreadyKnown (ledger u.name) a.id then
      (ledger, none)
    else
      let ledger' := ledgerSet ledger u.name a.id
      if sendOk then (ledger', some ⟨u.name, a.id⟩) else (ledger', none)

/-- One full poll cycle of `fetchAndPostActivity` over
`Object.values(anilistUsers)`: each account comes with its own fetch
outcome and send outcome; the ledger threads through, the delivered
notifications are collected in order. -/
def pollCycle (ledger : Ledger) : List (UserEntry × FetchResult × Bool) → Ledger × List Notif
  | [] => (ledger, [])
  | x :: rest =>
    let step := processAccount ledger x.1 x.2.1 x.2.2
    let tail := pollCycle step.1 rest
    (tail.1, step.2.toList ++ tail.2)

/-- Successive poll cycles for a single tracked user, one fetched
activity identifier per cycle, deliveries succeeding; returns the final
ledger and the list of identifiers for which a notification was
emitted. -/
def runCycles (ledger : Ledger) (u : UserEntry) : List Nat → Ledger × List Nat
  | [] => (ledger, [])
  | i :: rest =>
    let step := processAccount ledger u (.found ⟨i⟩) true
    let tail := runCycles step.1 u rest
    (tail.1, (step.2.map (fun n => n.activityId)).toList ++ tail.2)

/-- `String.prototype.toLowerCase()`, modelled character-wise so that it
evaluates inside the kernel. -/
def lowerStr (s : String) : String := ⟨s.data.map Char.toLower⟩

/-- `(anilistUser?.name?.toLowerCase() ?? '')` from the link handler:
the caller's current linked name lowercased, or the empty string when the
caller has no link. -/
def callerNameLower (store : Store) (callerId : String) : String :=
  match lookupEntry store callerId with
  | some e => lowerStr e.name
  | none => ""

/-- The collision lookup of the link handler (source lines 390-394):
`Object.values(anilistUsers).find(user => user.name.toLowerCase() ===
usernameToLink.toLowerCase() && user.name.toLowerCase() !==
(anilistUser?.name?.toLowerCase() ?? ''))`. -/
def findCollision (store : Store) (callerId : String) (attempt : String) : Option UserEntry :=
  (store.map Prod.snd).find? (fun u =>
    lowerStr u.name == lowerStr attempt && lowerStr u.name != callerNameLower store callerId)

/-- The distinct replies of the `!anilist link` handler. -/
inductive LinkResult
  | alreadyLinked
  | notFound
  | remoteError
  | success (e : UserEntry)
deriving DecidableEq, Repr

/-- The `!anilist link <name>` handler after argument validation: the
collision check short-circuits with the already-linked reply; otherwise
the resolver outcome decides between the error replies and the upsert
`anilistUsers[discordId] = {id, name}` followed by `saveUsers()`.
Returns the new store, the reply, and the number of `saveUsers()`
calls. -/
def linkHandler (store : Store) (callerId : String) (attempt : String)
    (resolve : Except Unit (Option UserEntry)) : Store × LinkResult × Nat :=
  match findCollision store callerId attempt with
  | some _ => (store, .alreadyLinked, 0)
  | none =>
    match resolve with
    | .error _ => (store, .remoteError, 0)
    | .ok none => (store, .notFound, 0)
    | .ok (some r) => (insertEntry store callerId r, .success r, 1)

/-- The two replies of the unlink handler. -/
inductive UnlinkResult
  | unlinked (name : String)
  | notLinked
deriving DecidableEq, Repr

/-- The `!anilist unlink` handler: when the caller has a link, delete the
ledger entry under the link's remote name, delete the store entry, and
save; otherwise reply that no account is linked, touching nothing. -/
def unlinkHandler (store : Store) (ledger : Ledger) (callerId : String) :
    Store × Ledger × UnlinkResult × Nat :=
  match lookupEntry store callerId with
  | some e => (eraseEntry store callerId, ledgerErase ledger e.name, .unlinked e.name, 1)
  | none => (store, ledger, .notLinked, 0)

/-- Per-medium statistics block (`count` plus episodes/chapters). -/
structure MediaStats where
  count : Nat
  progress : Nat
deriving DecidableEq, Repr

/-- The `statistics` object of a `STATS_QUERY` response. -/
structure StatsPair where
  anime : MediaStats
  manga : MediaStats
deriving DecidableEq, Repr

/-- The `User` object of a `STATS_QUERY` response; `statistics` is
optional because the filter `data && data.statistics` treats its absence
as invalid. -/
structure RemoteUser where
  name : String
  avatar : String
  statistics : Option StatsPair
deriving DecidableEq, Repr

/-- One element of `validStats` in `fetchAndPostTopStats`. -/
structure StatEntry where
  name : String
  count : Nat
  episodesOrChapters : Nat
  avatar : String
deriving DecidableEq, Repr

/-- `.map(res => res?.data?.data?.User).filter(data => data &&
data.statistics).map(data => ({...}))`: a `none` response is a request
that failed (the `.catch` returned null); users without statistics are
discarded; the rest are projected to the requested metric. -/
def validStatEntries (isAnime : Bool) (responses : List (Option RemoteUser)) : List StatEntry :=
  responses.filterMap (fun r =>
    match r with
    | none => none
    | some u =>
      match u.statistics with
      | none => none
      | some s =>
        some { name := u.name
               count := if isAnime then s.anime.count else s.manga.count
               episodesOrChapters := if isAnime then s.anime.progress else s.manga.progress
               avatar := u.avatar })

/-- Stable insertion of one entry into a count-descending list: the entry
goes in front of the first element with a count less than or equal to its
own, so equal counts keep their original relative order. -/
def insertByCount (x : StatEntry) : List StatEntry → List StatEntry
  | [] => [x]
  | y :: ys => if y.count ≤ x.count then x :: y :: ys else y :: insertByCount x ys

/-- `.sort((a, b) => b.count - a.count)`: JavaScript's sort is stable and
the comparator orders by count descending, which this stable insertion
sort realises exactly. -/
def sortByCountDesc (l : List StatEntry) : List StatEntry :=
  l.foldr insertByCount []

/-- The whole `validStats` pipeline of `fetchAndPostTopStats` including
the final `.slice(0, 10)`. -/
def leaderboard (isAnime : Bool) (responses : List (Option RemoteUser)) : List StatEntry :=
  (sortByCountDesc (validStatEntries isAnime responses)).take 10

/- ## Helper lemmas about the association-list store -/

theorem lookupEntry_insert (st : Store) (k : String) (v : UserEntry) :
    lookupEntry (insertEntry st k v) k = some v := by
  induction st with
  | nil => simp [insertEntry, lookupEntry]
  | cons p rest ih =>
    by_cases h : p.1 == k
    · simp [insertEntry, h, lookupEntry]
    · simp [insertEntry, h, lookupEntry, ih]

theorem lookupEntry_insert_ne (st : Store) (k k' : String) (v : UserEntry)
    (h : k' ≠ k) : lookupEntry (insertEntry st k v) k' = lookupEntry st k' := by
  induction st with
  | nil => simp [insertEntry, lookupEntry, beq_iff_eq, Ne.symm h]
  | cons p rest ih =>
    by_cases hp : p.1 == k
    · have hpk : p.1 = k := by simpa [beq_iff_eq] using hp
      simp [insertEntry, hp, lookupEntry, beq_iff_eq, Ne.symm h, hpk]
    · by_cases hp' : p.1 == k'
      · simp [insertEntry, hp, lookupEntry, hp']
      · simp [insertEntry, hp, lookupEntry, hp', ih]

theorem lookupEntry_erase (st : Store) (k : String) :
    lookupEntry (eraseEntry st k) k = none := by
  induction st with
  | nil => rfl
  | cons p rest ih =>
    by_cases hp : p.1 == k
    · simpa [eraseEntry, hp] using ih
    · simpa [eraseEntry, hp, lookupEntry] using ih

theorem lookupEntry_erase_ne (st : Store) (k k' : String) (h : k' ≠ k) :
    lookupEntry (eraseEntry st k) k' = lookupEntry st k' := by
  induction st with
  | nil => rfl
  | cons p rest ih =>
    by_cases hp : p.1 == k
    · have hpk : p.1 = k := by simpa [beq_iff_eq] using hp
      simp [eraseEntry, hp, lookupEntry, hpk, beq_iff_eq, Ne.symm h, ih]
    · by_cases hp' : p.1 == k'
      · simp [eraseEntry, hp, lookupEntry, hp']
      · simp [eraseEntry, hp, lookupEntry, hp', ih]

theorem mem_snd_of_lookupEntry (st : Store) (k : String) (e : UserEntry)
    (h : lookupEntry st k = some e) : e ∈ st.map Prod.snd := by
  induction st with
  | nil => cases h
  | cons p rest ih =>
    by_cases hp : p.1 == k
    · simp only [lookupEntry, hp, if_pos, Option.some.injEq] at h
      simp [← h]
    · simp only [lookupEntry, hp] at h
      exact List.mem_cons_of_mem _ (ih (by simpa using h))

/- ## Helper lemmas about the loadUsers conversion fold -/

theorem convertStep_lookup_ne (resolve : Resolver) (acc : Store × Bool)
    (p : String × RawValue) (k : String) (hp : p.1 ≠ k) :
    lookupEntry (convertStep resolve acc p).1 k = lookupEntry acc.1 k := by
  rcases p with ⟨pk, pv⟩
  cases pv with
  | str s =>
    cases hr : resolve s with
    | error e => simp [convertStep, hr]
    | ok o =>
      cases o with
      | none => simp [convertStep, hr]
      | some u => simp [convertStep, hr, lookupEntry_insert_ne _ _ _ _ (Ne.symm hp)]
  | obj i n =>
    by_cases hc : (i != 0 && n != "") = true
    · simp [convertStep, hc, lookupEntry_insert_ne _ _ _ _ (Ne.symm hp)]
    · simp [convertStep, hc]
  | other => rfl

theorem foldl_convertStep_ne (resolve : Resolver) (doc : RawDoc) (acc : Store × Bool)
    (k : String) (h : ∀ p ∈ doc, p.1 ≠ k) :
    lookupEntry (doc.foldl (convertStep resolve) acc).1 k = lookupEntry acc.1 k := by
  induction doc generalizing acc with
  | nil => rfl
  | cons p rest ih =>
    rw [List.foldl_cons, ih _ (fun q hq => h q (List.mem_cons_of_mem _ hq))]
    exact convertStep_lookup_ne resolve acc p k (h p (List.mem_cons_self _ _))

theorem foldl_convertStep_upgraded (resolve : Resolver) (doc : RawDoc) (acc : Store × Bool)
    (k s : String) (r : UserEntry) (hnd : (doc.map Prod.fst).Nodup)
    (hmem : (k, RawValue.str s) ∈ doc) (hr : resolve s = .ok (some r)) :
    lookupEntry (doc.foldl (convertStep resolve) acc).1 k = some r := by
  induction doc generalizing acc with
  | nil => cases hmem
  | cons p rest ih =>
    rw [List.map_cons, List.nodup_cons] at hnd
    obtain ⟨hp, hnd'⟩ := hnd
    rcases List.mem_cons.1 hmem with heq | hmem'
    · rw [List.foldl_cons, ← heq]
      have hkeys : ∀ q ∈ rest, q.1 ≠ k := by
        intro q hq hqk
        apply hp
        have hm : q.1 ∈ rest.map Prod.fst := List.mem_map_of_mem Prod.fst hq
        rw [hqk] at hm
        rw [← heq]
        exact hm
      rw [foldl_convertStep_ne resolve rest _ k hkeys]
      simp [convertStep, hr, lookupEntry_insert]
    · rw [List.foldl_cons]
      exact ih _ hnd' hmem'

theorem foldl_convertStep_dropped (resolve : Resolver) (doc : RawDoc) (acc : Store × Bool)
    (k s : String) (hnd : (doc.map Prod.fst).Nodup) (hmem : (k, RawValue.str s) ∈ doc)
    (hr : resolve s = .error () ∨ resolve s = .ok none) :
    lookupEntry (doc.foldl (convertStep resolve) acc).1 k = lookupEntry acc.1 k := by
  induction doc generalizing acc with
  | nil => cases hmem
  | cons p rest ih =>
    rw [List.map_cons, List.nodup_cons] at hnd
    obtain ⟨hp, hnd'⟩ := hnd
    rcases List.mem_cons.1 hmem with heq | hmem'
    · rw [List.foldl_cons, ← heq]
      have hkeys : ∀ q ∈ rest, q.1 ≠ k := by
        intro q hq hqk
        apply hp
        have hm : q.1 ∈ rest.map Prod.fst := List.mem_map_of_mem Prod.fst hq
        rw [hqk] at hm
        rw [← heq]
        exact hm
      rw [foldl_convertStep_ne resolve rest _ k hkeys]
      rcases hr with hr | hr <;> simp [convertStep, hr]
    · rw [List.foldl_cons]
      have hpk : p.1 ≠ k := by
        intro hqk
        apply hp
        have hm : k ∈ rest.map Prod.fst := List.mem_map_of_mem Prod.fst hmem'
        rw [hqk]
        exact hm
      rw [ih _ hnd' hmem', convertStep_lookup_ne resolve acc p k hpk]


theorem foldl_convertStep_structured (resolve : Resolver) (doc : RawDoc) (acc : Store × Bool)
    (k : String) (i : Int) (n : String) (hnd : (doc.map Prod.fst).Nodup)
    (hmem : (k, RawValue.obj i n) ∈ doc) (hi : i ≠ 0) (hn : n ≠ "") :
    lookupEntry (doc.foldl (convertStep resolve) acc).1 k = some ⟨i, n⟩ := by
  induction doc generalizing acc with
  | nil => cases hmem
  | cons p rest ih =>
    rw [List.map_cons, List.nodup_cons] at hnd
    obtain ⟨hp, hnd'⟩ := hnd
    rcases List.mem_cons.1 hmem with heq | hmem'
    · rw [List.foldl_cons, ← heq]
      have hkeys : ∀ q ∈ rest, q.1 ≠ k := by
        intro q hq hqk
        apply hp
        have hm : q.1 ∈ rest.map Prod.fst := List.mem_map_of_mem Prod.fst hq
        rw [hqk] at hm
        rw [← heq]
        exact hm
      rw [foldl_convertStep_ne resolve rest _ k hkeys]
      have hc : (i != 0 && n != "") = true := by
        simp [bne_iff_ne, hi, hn]
      simp [convertStep, hc, lookupEntry_insert]
    · rw [List.foldl_cons]
      exact ih _ hnd' hmem'

theorem foldl_convertStep_invalid (resolve : Resolver) (doc : RawDoc) (acc : Store × Bool)
    (k : String) (hacc : lookupEntry acc.1 k = none)
    (hinv : ∀ v, (k, v) ∈ doc → invalidValue v = true) :
    lookupEntry (doc.foldl (convertStep resolve) acc).1 k = none := by
  induction doc generalizing acc with
  | nil => exact hacc
  | cons p rest ih =>
    rw [List.foldl_cons]
    refine ih _ ?_ (fun v hv => hinv v (List.mem_cons_of_mem _ hv))
    by_cases hpk : p.1 = k
    · have hmem : (k, p.2) ∈ p :: rest := by
        have : p = (k, p.2) := by
          rw [← hpk]
        rw [← this]
        exact List.mem_cons_self _ _
      have hv : invalidValue p.2 = true := hinv p.2 hmem
      rcases p with ⟨pk, pv⟩
      cases pv with
      | str s => simp [invalidValue] at hv
      | obj i n =>
        simp only [invalidValue, Bool.not_eq_true'] at hv
        simp [convertStep, hv, hacc]
      | other => simpa [convertStep] using hacc
    · rw [convertStep_lookup_ne resolve acc p k hpk]
      exact hacc

theorem convertStep_flag (resolve : Resolver) (acc : Store × Bool) (p : String × RawValue) :
    (convertStep resolve acc p).2 = (acc.2 || upgradedEntry resolve p.2) := by
  rcases p with ⟨pk, pv⟩
  cases pv with
  | str s =>
    cases hr : resolve s with
    | error e => simp [convertStep, upgradedEntry, hr]
    | ok o =>
      cases o with
      | none => simp [convertStep, upgradedEntry, hr]
      | some u => simp [convertStep, upgradedEntry, hr]
  | obj i n =>
    by_cases hc : (i != 0 && n != "") = true <;> simp [convertStep, upgradedEntry, hc]
  | other => simp [convertStep, upgradedEntry]

theorem foldl_convertStep_flag (resolve : Resolver) (doc : RawDoc) (acc : Store × Bool) :
    (doc.foldl (convertStep resolve) acc).2
      = (acc.2 || doc.any (fun p => upgradedEntry resolve p.2)) := by
  induction doc generalizing acc with
  | nil => simp
  | cons p rest ih =>
    rw [List.foldl_cons, ih, convertStep_flag, List.any_cons, Bool.or_assoc]

theorem processAccount_fst_ne (ledger : Ledger) (u : UserEntry) (fr : FetchResult)
    (s : Bool) (m : String) (h : m ≠ u.name) :
    (processAccount ledger u fr s).1 m = ledger m := by
  cases fr with
  | fetchError => rfl
  | noActivity => rfl
  | found a =>
    simp only [processAccount]
    split
    · rfl
    · split <;> simp [ledgerSet, h]

theorem processAccount_snd_congr (l1 l2 : Ledger) (u : UserEntry) (fr : FetchResult)
    (s : Bool) (h : l1 u.name = l2 u.name) :
    (processAccount l1 u fr s).2 = (processAccount l2 u fr s).2 := by
  cases fr with
  | fetchError => rfl
  | noActivity => rfl
  | found a =>
    simp only [processAccount, h]
    split
    · rfl
    · split <;> rfl

theorem mem_insertByCount (z x : StatEntry) (l : List StatEntry) :
    z ∈ insertByCount x l ↔ z = x ∨ z ∈ l := by
  induction l with
  | nil => simp [insertByCount]
  | cons y ys ih =>
    rw [insertByCount]
    by_cases hc : y.count ≤ x.count
    · simp [hc]
    · simp only [if_neg hc, List.mem_cons, ih]
      tauto

theorem pairwise_insertByCount (x : StatEntry) (l : List StatEntry)
    (h : l.Pairwise (fun a b => b.count ≤ a.count)) :
    (insertByCount x l).Pairwise (fun a b => b.count ≤ a.count) := by
  induction l with
  | nil => simp [insertByCount]
  | cons y ys ih =>
    rw [List.pairwise_cons] at h
    obtain ⟨hy, hys⟩ := h
    rw [insertByCount]
    by_cases hc : y.count ≤ x.count
    · rw [if_pos hc, List.pairwise_cons]
      constructor
      · intro z hz
        rcases List.mem_cons.1 hz with rfl | hz
        · exact hc
        · exact le_trans (hy z hz) hc
      · rw [List.pairwise_cons]
        exact ⟨hy, hys⟩
    · rw [if_neg hc, List.pairwise_cons]
      constructor
      · intro z hz
        rcases (mem_insertByCount z x ys).1 hz with rfl | hz
        · omega
        · exact hy z hz
      · exact ih hys

theorem pairwise_sortByCountDesc (l : List StatEntry) :
    (sortByCountDesc l).Pairwise (fun a b => b.count ≤ a.count) := by
  induction l with
  | nil => simp [sortByCountDesc]
  | cons x xs ih => exact pairwise_insertByCount x _ ih

theorem filter_insertByCount (x : StatEntry) (l : List StatEntry) (c : Nat) :
    (insertByCount x l).filter (fun e => e.count == c)
      = if x.count == c then x :: l.filter (fun e => e.count == c)
        else l.filter (fun e => e.count == c) := by
  induction l with
  | nil =>
    by_cases hx : (x.count == c) = true <;> simp [insertByCount, List.filter, hx]
  | cons y ys ih =>
    rw [insertByCount]
    by_cases hc : y.count ≤ x.count
    · rw [if_pos hc, List.filter_cons]
    · rw [if_neg hc, List.filter_cons, List.filter_cons, ih]
      by_cases hx : (x.count == c) = true
      · by_cases hy : (y.count == c) = true
        · exfalso
          have hxc : x.count = c := by simpa using hx
          have hyc : y.count = c := by simpa using hy
          omega
        · simp [hx, hy]
      · by_cases hy : (y.count == c) = true <;> simp [hx, hy]

theorem filter_sortByCountDesc (l : List StatEntry) (c : Nat) :
    (sortByCountDesc l).filter (fun e => e.count == c)
      = l.filter (fun e => e.count == c) := by
  induction l with
  | nil => rfl
  | cons x xs ih =>
    show (insertByCount x (sortByCountDesc xs)).filter _ = _
    rw [filter_insertByCount, List.filter_cons, ih]

/- ## Claim theorems -/

/-- C1 counterexample: starting from an empty ledger, a single user whose
fetched activity identifiers across two cycles are 0 and then 0 again
receives TWO notifications, although after the first cycle the Dedup
Ledger does hold a stored identifier (0) for the user's remote name and
that stored identifier is not strictly less than the fetched identifier.
The truthiness guard on source line 198 treats a stored 0 as absent, so
the claim's "only if" direction fails at this input. -/
theorem c1_counterexample :
    (runCycles emptyLedger ⟨1, "u"⟩ [0]).1 "u" = some 0 ∧
    ¬ (0 : Nat) < 0 ∧
    (runCycles emptyLedger ⟨1, "u"⟩ [0, 0]).2 = [0, 0] := by
  refine ⟨by decide, by omega, by decide⟩

/-- C1 (amended): for a single tracked user, across successive poll
cycles the Poller emits a notification for a fetched activity if and only
if the Dedup Ledger holds no stored identifier for that user's remote
name, or the stored identifier is 0 (JavaScript truthiness treats a
stored 0 as absent), or the stored identifier is strictly less than the
fetched activity's identifier; in particular, for the identifier sequence
[5, 5, 7, 3, 9] notifications are emitted exactly for 5, 7 and 9, never
for the repeated 5 or the lower 3. -/
theorem c1_dedup_emission :
    (∀ (ledger : Ledger) (u : UserEntry) (a : Activity),
        ((processAccount ledger u (.found a) true).2).isSome = true ↔
          (ledger u.name = none ∨ ledger u.name = some 0 ∨
            ∃ v, ledger u.name = some v ∧ v < a.id)) ∧
    (runCycles emptyLedger ⟨1, "u"⟩ [5, 5, 7, 3, 9]).2 = [5, 7, 9] := by
  constructor
  · intro ledger u a
    cases hl : ledger u.name with
    | none => simp [processAccount, alreadyKnown, hl]
    | some v =>
      by_cases hk : alreadyKnown (some v) a.id = true
      · have hv : v ≠ 0 ∧ a.id ≤ v := by
          simpa [alreadyKnown, bne_iff_ne] using hk
        simp [processAccount, hl, hk]
        omega
      · have hb : alreadyKnown (some v) a.id = false := by
          simpa using hk
        have hv : v = 0 ∨ v < a.id := by
          by_cases h0 : v = 0
          · exact Or.inl h0
          · right
            simp [alreadyKnown, bne_iff_ne, h0] at hb
            omega
        simp [processAccount, hl, hb]
        exact hv
  · decide

/-- C7: during one poll cycle over the account list, when the accounts
bear pairwise distinct remote names, each account's delivered
notification is exactly the one computed from that account's own fetch
outcome against the cycle's initial ledger — so a remote-service failure
(or missing activity) for one account leaves every other account's
processing and emission unchanged, and no failure escapes the per-account
iteration (the cycle is a total function of the outcome list). -/
theorem c7_cycle_isolation (ledger : Ledger) (inputs : List (UserEntry × FetchResult × Bool))
    (hnd : (inputs.map (fun x => x.1.name)).Nodup) :
    (pollCycle ledger inputs).2
      = inputs.filterMap (fun x => (processAccount ledger x.1 x.2.1 x.2.2).2) := by
  induction inputs generalizing ledger with
  | nil => rfl
  | cons x rest ih =>
    rw [List.map_cons, List.nodup_cons] at hnd
    obtain ⟨hx, hnd'⟩ := hnd
    have hcons : (pollCycle ledger (x :: rest)).2
        = ((processAccount ledger x.1 x.2.1 x.2.2).2).toList
          ++ (pollCycle (processAccount ledger x.1 x.2.1 x.2.2).1 rest).2 := rfl
    rw [hcons, ih _ hnd']
    have hrest : rest.filterMap
          (fun y => (processAccount (processAccount ledger x.1 x.2.1 x.2.2).1 y.1 y.2.1 y.2.2).2)
        = rest.filterMap (fun y => (processAccount ledger y.1 y.2.1 y.2.2).2) := by
      apply List.filterMap_congr
      intro y hy
      have hmem : y.1.name ∈ rest.map (fun z => z.1.name) := List.mem_map_of_mem _ hy
      have hne : y.1.name ≠ x.1.name := by
        intro h
        apply hx
        rw [← h]
        exact hmem
      exact processAccount_snd_congr _ _ _ _ _ (processAccount_fst_ne _ _ _ _ _ hne)
    rw [hrest, List.filterMap_cons]
    cases h2 : (processAccount ledger x.1 x.2.1 x.2.2).2 <;> simp [h2]

/-- C7 witness: a concrete three-account cycle whose middle account's
fetch throws still processes and emits for the first and third accounts
exactly as each would in isolation. -/
theorem c7_cycle_isolation_witness :
    (pollCycle emptyLedger
        [(⟨1, "u1"⟩, .found ⟨5⟩, true), (⟨2, "u2"⟩, .fetchError, true),
         (⟨3, "u3"⟩, .found ⟨7⟩, true)]).2
      = ([(⟨1, "u1"⟩, FetchResult.found ⟨5⟩, true), (⟨2, "u2"⟩, FetchResult.fetchError, true),
          (⟨3, "u3"⟩, FetchResult.found ⟨7⟩, true)] : List (UserEntry × FetchResult × Bool)).filterMap
          (fun x => (processAccount emptyLedger x.1 x.2.1 x.2.2).2) :=
  c7_cycle_isolation emptyLedger _ (by decide)

/-- C8 counterexample: for an activity with identifier 0, the ledger is
updated before the (failing) send, yet the SAME activity is reprocessed
and re-emitted in the next cycle, because the stored 0 fails the
truthiness guard — the claim's "never reprocessed in a later cycle"
consequence fails at this input. -/
theorem c8_counterexample :
    (processAccount emptyLedger ⟨1, "u"⟩ (.found ⟨0⟩) false).1 "u" = some 0 ∧
    (processAccount ((processAccount emptyLedger ⟨1, "u"⟩ (.found ⟨0⟩) false).1)
        ⟨1, "u"⟩ (.found ⟨0⟩) true).2 = some ⟨"u", 0⟩ := by
  exact ⟨by decide, by decide⟩

/-- C8 (amended): when the Poller decides an activity is new, it writes
the new identifier into the Dedup Ledger strictly before the send, so a
failing send still leaves the ledger updated (and delivers nothing); and
provided the activity's identifier is nonzero, a later cycle fetching
the same activity changes nothing and emits nothing. -/
theorem c8_update_before_send (ledger : Ledger) (u : UserEntry) (a : Activity)
    (hnew : alreadyKnown (ledger u.name) a.id = false) :
    (processAccount ledger u (.found a) false).1 u.name = some a.id ∧
    (processAccount ledger u (.found a) false).2 = none ∧
    (a.id ≠ 0 → ∀ s : Bool,
      processAccount ((processAccount ledger u (.found a) false).1) u (.found a) s
        = ((processAccount ledger u (.found a) false).1, none)) := by
  have hstep : processAccount ledger u (.found a) false
      = (ledgerSet ledger u.name a.id, none) := by
    simp [processAccount, hnew]
  refine ⟨?_, ?_, ?_⟩
  · rw [hstep]
    simp [ledgerSet]
  · rw [hstep]
  · intro h0 s
    rw [hstep]
    have hl : (ledgerSet ledger u.name a.id) u.name = some a.id := by simp [ledgerSet]
    simp [processAccount, hl, alreadyKnown, bne_iff_ne, h0]

/-- C8 witness: concrete instance at identifier 5 with a failing send:
ledger updated, nothing delivered, and the next cycle with the same
activity is a no-op. -/
theorem c8_update_before_send_witness :
    (processAccount emptyLedger ⟨1, "u"⟩ (.found ⟨5⟩) false).1 "u" = some 5 ∧
    (processAccount emptyLedger ⟨1, "u"⟩ (.found ⟨5⟩) false).2 = none ∧
    processAccount ((processAccount emptyLedger ⟨1, "u"⟩ (.found ⟨5⟩) false).1)
        ⟨1, "u"⟩ (.found ⟨5⟩) true
      = (((processAccount emptyLedger ⟨1, "u"⟩ (.found ⟨5⟩) false).1), none) := by
  obtain ⟨h1, h2, h3⟩ := c8_update_before_send emptyLedger ⟨1, "u"⟩ ⟨5⟩ (by decide)
  exact ⟨h1, h2, h3 (by decide) true⟩

/-- C2 counterexample: in a store where two distinct Discord accounts
are linked to the same remote name "alice" (such a store can arise from a
loaded legacy document, which performs no collision check), a link
attempt by the second account to "alice" is NOT rejected: the collision
check exempts every entry bearing the caller's own current lowercased
name, which here also exempts the other account's entry, so the claim's
rejection fails at this input. -/
theorem c2_counterexample :
    ("discordA" : String) ≠ "discordB" ∧
    lookupEntry [("discordA", ⟨1, "alice"⟩), ("discordB", ⟨2, "alice"⟩)] "discordA"
      = some ⟨1, "alice"⟩ ∧
    lowerStr "alice" = lowerStr "alice" ∧
    (linkHandler [("discordA", ⟨1, "alice"⟩), ("discordB", ⟨2, "alice"⟩)] "discordB" "alice"
        (.ok (some ⟨3, "alice"⟩))).2.1 ≠ LinkResult.alreadyLinked := by
  refine ⟨by decide, by decide, rfl, by decide⟩

/-- C2 (amended): a link attempt is rejected with the already-linked
reply whenever some other account's stored link bears a case-insensitively
equal name AND that lowercased name differs from the caller's own current
lowercased name (empty if unlinked); the collision check exempts every
stored entry bearing the caller's current name, not merely the caller's
own entry, so a caller whose current link is case-insensitively equal to
the attempted name is never rejected by this check, even when another
account is linked to the same name. -/
theorem c2_link_collision (store : Store) (callerId attempt : String)
    (resolve : Except Unit (Option UserEntry)) :
    (∀ (otherId : String) (ea : UserEntry), otherId ≠ callerId →
      lookupEntry store otherId = some ea →
      lowerStr ea.name = lowerStr attempt →
      lowerStr ea.name ≠ callerNameLower store callerId →
      (linkHandler store callerId attempt resolve).2.1 = .alreadyLinked) ∧
    (∀ eb : UserEntry, lookupEntry store callerId = some eb →
      lowerStr eb.name = lowerStr attempt →
      (linkHandler store callerId attempt resolve).2.1 ≠ .alreadyLinked) := by
  constructor
  · intro otherId ea hne hlk hnm hno
    have hmem : ea ∈ store.map Prod.snd := mem_snd_of_lookupEntry store otherId ea hlk
    have hcoll : (findCollision store callerId attempt).isSome = true := by
      rw [findCollision, List.find?_isSome]
      refine ⟨ea, hmem, ?_⟩
      have h1 : (lowerStr ea.name == lowerStr attempt) = true := by simp [hnm]
      have h2 : (lowerStr ea.name != callerNameLower store callerId) = true := by
        simp [bne_iff_ne, hno]
      simp [h1, h2]
    obtain ⟨w, hw⟩ := Option.isSome_iff_exists.1 hcoll
    simp [linkHandler, hw]
  · intro eb hlk hnm
    have hcn : callerNameLower store callerId = lowerStr attempt := by
      simp [callerNameLower, hlk, hnm]
    have hcoll : findCollision store callerId attempt = none := by
      rw [findCollision, List.find?_eq_none]
      intro u hu
      rw [hcn]
      by_cases h : (lowerStr u.name == lowerStr attempt) = true
      · have heq : lowerStr u.name = lowerStr attempt := by simpa using h
        simp [h, heq]
      · simp [h]
    cases resolve with
    | error e => simp [linkHandler, hcoll]
    | ok o => cases o <;> simp [linkHandler, hcoll]

/-- C2 witness: a caller linked to "bob" attempting "ALICE" while another
account holds "Alice" is rejected; the same caller re-attempting "BOB"
(case-insensitively their own current name) is not rejected. -/
theorem c2_witness :
    (linkHandler [("dA", ⟨1, "Alice"⟩), ("dB", ⟨2, "bob"⟩)] "dB" "ALICE"
        (.ok (some ⟨1, "Alice"⟩))).2.1 = LinkResult.alreadyLinked ∧
    (linkHandler [("dB", ⟨2, "bob"⟩)] "dB" "BOB" (.ok (some ⟨2, "bob"⟩))).2.1
      ≠ LinkResult.alreadyLinked := by
  constructor
  · exact (c2_link_collision _ "dB" "ALICE" _).1 "dA" ⟨1, "Alice"⟩ (by decide) (by decide)
      (by decide) (by decide)
  · exact (c2_link_collision _ "dB" "BOB" _).2 ⟨2, "bob"⟩ (by decide) (by decide)

/-- C5: unlink on a linked account removes the account's entry from the
Account Store (keyed by the caller's Discord id) and the Dedup Ledger
(keyed by the link's remote name), leaves all other keys of both maps
unchanged, replies with the unlinked message and persists exactly once;
unlink on an account with no current link leaves store and ledger
untouched, performs no persist, and replies with the distinct not-linked
outcome. -/
theorem c5_unlink (store : Store) (ledger : Ledger) (callerId : String) :
    (∀ e, lookupEntry store callerId = some e →
      lookupEntry (unlinkHandler store ledger callerId).1 callerId = none ∧
      (unlinkHandler store ledger callerId).2.1 e.name = none ∧
      (∀ k, k ≠ callerId →
        lookupEntry (unlinkHandler store ledger callerId).1 k = lookupEntry store k) ∧
      (∀ n, n ≠ e.name → (unlinkHandler store ledger callerId).2.1 n = ledger n) ∧
      (unlinkHandler store ledger callerId).2.2.1 = .unlinked e.name ∧
      (unlinkHandler store ledger callerId).2.2.2 = 1) ∧
    (lookupEntry store callerId = none →
      unlinkHandler store ledger callerId = (store, ledger, .notLinked, 0)) := by
  constructor
  · intro e he
    simp only [unlinkHandler, he]
    refine ⟨lookupEntry_erase _ _, by simp [ledgerErase], ?_, ?_, by trivial, by trivial⟩
    · intro k hk
      exact lookupEntry_erase_ne _ _ _ hk
    · intro n hn
      simp [ledgerErase, hn]
  · intro he
    simp [unlinkHandler, he]

/-- C5 witness: unlinking the linked account "d1" empties its store entry
and its ledger entry under "alice" with one save; unlinking the unlinked
"d2" is a reported no-op. -/
theorem c5_witness :
    lookupEntry ((unlinkHandler [("d1", ⟨1, "alice"⟩)] (ledgerSet emptyLedger "alice" 9) "d1").1)
        "d1" = none ∧
    (unlinkHandler [("d1", ⟨1, "alice"⟩)] (ledgerSet emptyLedger "alice" 9) "d1").2.1 "alice"
      = none ∧
    (unlinkHandler [("d1", ⟨1, "alice"⟩)] (ledgerSet emptyLedger "alice" 9) "d1").2.2.2 = 1 ∧
    unlinkHandler [] emptyLedger "d2" = ([], emptyLedger, .notLinked, 0) := by
  obtain ⟨h1, h2⟩ := c5_unlink [("d1", ⟨1, "alice"⟩)] (ledgerSet emptyLedger "alice" 9) "d1"
  obtain ⟨ha, hb, hc, hd, he', hf⟩ := h1 ⟨1, "alice"⟩ rfl
  exact ⟨ha, hb, hf, (c5_unlink [] emptyLedger "d2").2 rfl⟩

/-- C6: when the collision check passes and resolution succeeds with
entry r, the link handler stores exactly r under the caller's id (the
prior link, if any, is replaced wholesale — a lookup returns precisely
the newly resolved id and name), leaves every other key unchanged,
replies success and persists once. -/
theorem c6_relink_replaces (store : Store) (callerId attempt : String) (r : UserEntry)
    (hcoll : findCollision store callerId attempt = none) :
    lookupEntry (linkHandler store callerId attempt (.ok (some r))).1 callerId = some r ∧
    (∀ k, k ≠ callerId →
      lookupEntry (linkHandler store callerId attempt (.ok (some r))).1 k = lookupEntry store k) ∧
    (linkHandler store callerId attempt (.ok (some r))).2.1 = .success r ∧
    (linkHandler store callerId attempt (.ok (some r))).2.2 = 1 := by
  simp only [linkHandler, hcoll]
  exact ⟨lookupEntry_insert _ _ _, fun k hk => lookupEntry_insert_ne _ _ _ _ hk, by trivial, by trivial⟩

/-- C6 witness: account "d1", previously linked to "alice", re-links to
"bob": the stored entry is exactly the resolved (2, "bob") pair and one
save occurs. -/
theorem c6_witness :
    lookupEntry (linkHandler [("d1", ⟨1, "alice"⟩)] "d1" "bob" (.ok (some ⟨2, "bob"⟩))).1 "d1"
      = some ⟨2, "bob"⟩ ∧
    (linkHandler [("d1", ⟨1, "alice"⟩)] "d1" "bob" (.ok (some ⟨2, "bob"⟩))).2.1
      = LinkResult.success ⟨2, "bob"⟩ ∧
    (linkHandler [("d1", ⟨1, "alice"⟩)] "d1" "bob" (.ok (some ⟨2, "bob"⟩))).2.2 = 1 := by
  obtain ⟨h1, h2, h3, h4⟩ := c6_relink_replaces [("d1", ⟨1, "alice"⟩)] "d1" "bob" ⟨2, "bob"⟩
    (by decide)
  exact ⟨h1, h3, h4⟩


/-- C3: loading a persisted document with unique keys in which key k
holds a legacy bare string whose remote resolution succeeds with r yields
a store in which k maps to exactly the structured entry returned by the
resolver, and the load performs exactly one re-persist; a load in which
no entry takes the upgrade path performs no re-persist. -/
theorem c3_legacy_upgrade (resolve : Resolver) (doc : RawDoc) (k s : String) (r : UserEntry)
    (hnd : (doc.map Prod.fst).Nodup) (hmem : (k, RawValue.str s) ∈ doc)
    (hr : resolve s = .ok (some r)) :
    lookupEntry (loadUsers resolve (.ok doc)).1 k = some r ∧
    (loadUsers resolve (.ok doc)).2 = 1 ∧
    (∀ (resolve2 : Resolver) (doc2 : RawDoc),
      (∀ p ∈ doc2, upgradedEntry resolve2 p.2 = false) →
      (loadUsers resolve2 (.ok doc2)).2 = 0) := by
  refine ⟨?_, ?_, ?_⟩
  · exact foldl_convertStep_upgraded resolve doc ([], false) k s r hnd hmem hr
  · have hany : doc.any (fun p => upgradedEntry resolve p.2) = true := by
      rw [List.any_eq_true]
      exact ⟨(k, RawValue.str s), hmem, by simp [upgradedEntry, hr]⟩
    show (if (convertUsers resolve doc).2 then 1 else 0) = 1
    rw [convertUsers, foldl_convertStep_flag, hany]
    rfl
  · intro resolve2 doc2 hall
    have hany : doc2.any (fun p => upgradedEntry resolve2 p.2) = false := by
      rw [List.any_eq_false]
      intro p hp
      simp [hall p hp]
    show (if (convertUsers resolve2 doc2).2 then 1 else 0) = 0
    rw [convertUsers, foldl_convertStep_flag, hany]
    rfl

/-- C3 witness: the spec's example — loading a document mapping "u1" to
the bare string "Alice" with a resolver answering id 42 yields the
structured entry (42, "Alice") and exactly one save, while loading the
already-structured document saves zero times. -/
theorem c3_witness :
    lookupEntry (loadUsers
        (fun n => if n = "Alice" then Except.ok (some ⟨42, "Alice"⟩) else Except.ok none)
        (.ok [("u1", RawValue.str "Alice")])).1 "u1" = some ⟨42, "Alice"⟩ ∧
    (loadUsers (fun n => if n = "Alice" then Except.ok (some ⟨42, "Alice"⟩) else Except.ok none)
        (.ok [("u1", RawValue.str "Alice")])).2 = 1 ∧
    (loadUsers (fun n => if n = "Alice" then Except.ok (some ⟨42, "Alice"⟩) else Except.ok none)
        (.ok [("u1", RawValue.obj 42 "Alice")])).2 = 0 := by
  obtain ⟨h1, h2, h3⟩ := c3_legacy_upgrade
    (fun n => if n = "Alice" then Except.ok (some ⟨42, "Alice"⟩) else Except.ok none)
    [("u1", RawValue.str "Alice")] "u1" "Alice" ⟨42, "Alice"⟩
    (by decide) (by decide) rfl
  exact ⟨h1, h2, h3 _ [("u1", RawValue.obj 42 "Alice")] (by decide)⟩

/-- C4: under unique keys, a legacy bare-string entry whose resolution
fails (transport error or not-found) is absent from the loaded store,
while bare entries whose resolution succeeded hold the resolved pair and
entries already structured with truthy id and name are retained as-is. -/
theorem c4_failed_resolution_drops (resolve : Resolver) (doc : RawDoc)
    (hnd : (doc.map Prod.fst).Nodup) :
    (∀ k s, (k, RawValue.str s) ∈ doc →
      (resolve s = .error () ∨ resolve s = .ok none) →
      lookupEntry (loadUsers resolve (.ok doc)).1 k = none) ∧
    (∀ k s r, (k, RawValue.str s) ∈ doc → resolve s = .ok (some r) →
      lookupEntry (loadUsers resolve (.ok doc)).1 k = some r) ∧
    (∀ k i n, (k, RawValue.obj i n) ∈ doc → i ≠ 0 → n ≠ "" →
      lookupEntry (loadUsers resolve (.ok doc)).1 k = some ⟨i, n⟩) := by
  refine ⟨?_, ?_, ?_⟩
  · intro k s hmem hr
    exact foldl_convertStep_dropped resolve doc ([], false) k s hnd hmem hr
  · intro k s r hmem hr
    exact foldl_convertStep_upgraded resolve doc ([], false) k s r hnd hmem hr
  · intro k i n hmem hi hn
    exact foldl_convertStep_structured resolve doc ([], false) k i n hnd hmem hi hn

/-- C4 witness: a four-entry document in which "u1" hits a transport
error and "u2" a not-found (both dropped), "u3" resolves successfully and
"u4" is already structured (both retained). -/
theorem c4_witness :
    lookupEntry (loadUsers
        (fun n => if n = "Good" then Except.ok (some ⟨7, "Good"⟩)
          else if n = "Gone" then Except.ok none else Except.error ())
        (.ok [("u1", RawValue.str "BadNet"), ("u2", RawValue.str "Gone"),
              ("u3", RawValue.str "Good"), ("u4", RawValue.obj 5 "Keep")])).1 "u1" = none ∧
    lookupEntry (loadUsers
        (fun n => if n = "Good" then Except.ok (some ⟨7, "Good"⟩)
          else if n = "Gone" then Except.ok none else Except.error ())
        (.ok [("u1", RawValue.str "BadNet"), ("u2", RawValue.str "Gone"),
              ("u3", RawValue.str "Good"), ("u4", RawValue.obj 5 "Keep")])).1 "u2" = none ∧
    lookupEntry (loadUsers
        (fun n => if n = "Good" then Except.ok (some ⟨7, "Good"⟩)
          else if n = "Gone" then Except.ok none else Except.error ())
        (.ok [("u1", RawValue.str "BadNet"), ("u2", RawValue.str "Gone"),
              ("u3", RawValue.str "Good"), ("u4", RawValue.obj 5 "Keep")])).1 "u3"
      = some ⟨7, "Good"⟩ ∧
    lookupEntry (loadUsers
        (fun n => if n = "Good" then Except.ok (some ⟨7, "Good"⟩)
          else if n = "Gone" then Except.ok none else Except.error ())
        (.ok [("u1", RawValue.str "BadNet"), ("u2", RawValue.str "Gone"),
              ("u3", RawValue.str "Good"), ("u4", RawValue.obj 5 "Keep")])).1 "u4"
      = some ⟨5, "Keep"⟩ := by
  obtain ⟨h1, h2, h3⟩ := c4_failed_resolution_drops
    (fun n => if n = "Good" then Except.ok (some ⟨7, "Good"⟩)
      else if n = "Gone" then Except.ok none else Except.error ())
    [("u1", RawValue.str "BadNet"), ("u2", RawValue.str "Gone"),
     ("u3", RawValue.str "Good"), ("u4", RawValue.obj 5 "Keep")] (by decide)
  exact ⟨h1 "u1" "BadNet" (by decide) (Or.inl rfl),
         h1 "u2" "Gone" (by decide) (Or.inr rfl),
         h2 "u3" "Good" ⟨7, "Good"⟩ (by decide) rfl,
         h3 "u4" 5 "Keep" (by decide) (by decide) (by decide)⟩

/-- C10: when the persisted document fails to parse, load returns the
empty store with no persist instead of crashing; and any key all of whose
document values are neither bare strings nor structured objects with
truthy id and name is silently absent from the loaded store. -/
theorem c10_parse_failure_safe (resolve : Resolver) :
    loadUsers resolve (.error ()) = ([], 0) ∧
    (∀ (doc : RawDoc) (k : String),
      (∀ p ∈ doc, p.1 = k → invalidValue p.2 = true) →
      lookupEntry (loadUsers resolve (.ok doc)).1 k = none) := by
  refine ⟨rfl, ?_⟩
  intro doc k hinv
  exact foldl_convertStep_invalid resolve doc ([], false) k rfl
    (fun v hv => hinv (k, v) hv rfl)

/-- C10 witness: a parse failure yields the empty store and no save; a
document whose entries are a falsy-id object, a null-like value and an
empty-name object loads to a store containing neither key. -/
theorem c10_witness :
    loadUsers (fun _ => Except.error ()) (.error ()) = ([], 0) ∧
    lookupEntry (loadUsers (fun _ => Except.error ())
        (.ok [("u1", RawValue.obj 0 "x"), ("u1", RawValue.other),
              ("u2", RawValue.obj 3 "")])).1 "u1" = none ∧
    lookupEntry (loadUsers (fun _ => Except.error ())
        (.ok [("u1", RawValue.obj 0 "x"), ("u1", RawValue.other),
              ("u2", RawValue.obj 3 "")])).1 "u2" = none := by
  obtain ⟨h1, h2⟩ := c10_parse_failure_safe (fun _ => Except.error ())
  exact ⟨h1, h2 _ "u1" (by decide), h2 _ "u2" (by decide)⟩

/-- C9: the leaderboard pipeline discards failed responses and responses
lacking statistics, sorts the remaining entries in descending order of
the requested completed-count with ties kept in original fetch order
(for every count value, filtering the sorted list for that count returns
the original subsequence), and truncates to at most 10 entries; for the
spec's inputs A:10, B:25, C:25 (plus a failed and a statistics-lacking
response) the output order is exactly B, C, A. -/
theorem c9_leaderboard :
    (leaderboard true
        [none, some ⟨"nostats", "av0", none⟩,
         some ⟨"A", "avA", some ⟨⟨10, 100⟩, ⟨0, 0⟩⟩⟩,
         some ⟨"B", "avB", some ⟨⟨25, 200⟩, ⟨0, 0⟩⟩⟩,
         some ⟨"C", "avC", some ⟨⟨25, 300⟩, ⟨0, 0⟩⟩⟩]
      = [⟨"B", 25, 200, "avB"⟩, ⟨"C", 25, 300, "avC"⟩, ⟨"A", 10, 100, "avA"⟩]) ∧
    (∀ (b : Bool) (rs : List (Option RemoteUser)),
      leaderboard b rs = (sortByCountDesc (validStatEntries b rs)).take 10) ∧
    (∀ (b : Bool) (rs : List (Option RemoteUser)), (leaderboard b rs).length ≤ 10) ∧
    (∀ (b : Bool) (rs : List (Option RemoteUser)),
      (leaderboard b rs).Pairwise (fun x y => y.count ≤ x.count)) ∧
    (∀ (b : Bool) (rs : List (Option RemoteUser)) (c : Nat),
      (sortByCountDesc (validStatEntries b rs)).filter (fun e => e.count == c)
        = (validStatEntries b rs).filter (fun e => e.count == c)) := by
  refine ⟨by decide, fun b rs => rfl, ?_, ?_, ?_⟩
  · intro b rs
    exact List.length_take_le _ _
  · intro b rs
    exact (pairwise_sortByCountDesc _).sublist (List.take_sublist _ _)
  · intro b rs c
    exact filter_sortByCountDesc _ _

end AnimeListBot
